import Mathlib

/-!
Shallow embedding of `src/IVY_Code_API_Extraction.py` (class `NameHarvester`).

The Python program is sequential and effectful; we embed it by explicit state
passing.  Machinery that the claims do not observe (sleeping, jitter values,
log formatting) is dropped; everything the claims observe (query attempts, the
per-version metric counter, the discovered-entry set, the recursion structure,
the output file contents, and the exceptions that can escape `_perform_query`)
is modelled explicitly.  Ghost fields (`attempts`, `queryLog`, `recurseLog`)
record the observable event history without influencing control flow.
-/

namespace Harvest

/-- A parsed JSON response body, restricted to the shape the harvester reads:
an object mapping field names to lists of strings (`crawl` only ever reads the
`results` field, expected to be a list of suggestion strings). -/
abbrev Body := List (String × List String)

/-- Outcome of one HTTP request attempt, i.e. of `requests.get` followed by
`raise_for_status()` and `response.json()`: a parsed body on a non-error
status, a body-parse failure on a non-error status (generic `Exception`), an
error status raising `requests.exceptions.HTTPError` with that status code, or
a transport-level failure raising a generic exception from `requests.get`. -/
inductive Response where
  | ok (body : Body)
  | parseError
  | httpStatus (code : Nat)
  | netError
deriving DecidableEq

/-- A Python exception escaping `_perform_query` uncaught: `NameError` when
the module-level global `harvester` is unbound at the `print` lines of the 429
branch, `KeyError` when that global's `api_query_metrics` dict lacks the
hardcoded key `v1` or `v2` indexed there. -/
inductive PyError where
  | nameError
  | keyError
deriving DecidableEq

/-- Decidable equality on `Except`, so that runs of the embedded program can
be evaluated on concrete inputs by `decide`. -/
instance {ε α : Type} [DecidableEq ε] [DecidableEq α] :
    DecidableEq (Except ε α) := fun x y =>
  match x, y with
  | .error a, .error b =>
    if h : a = b then .isTrue (by rw [h])
    else .isFalse (by intro hc; cases hc; exact h rfl)
  | .error _, .ok _ => .isFalse (by intro hc; cases hc)
  | .ok _, .error _ => .isFalse (by intro hc; cases hc)
  | .ok a, .ok b =>
    if h : a = b then .isTrue (by rw [h])
    else .isFalse (by intro hc; cases hc; exact h rfl)

/-- Embedding of `result_data.get("results", [])` from `crawl` (line 72). -/
def getResults (b : Body) : List String :=
  match b.lookup "results" with
  | some l => l
  | none => []

/-- Embedding of the two `print` statements in the 429 branch of
`_perform_query` (lines 51-52), which read the module-level global `harvester`
and index `harvester.api_query_metrics` with the hardcoded keys `v1` and `v2`.
`gstate` is `none` when the global name is unbound (a `NameError` is raised at
the first `print`), and `some keys` when it is bound to a harvester whose
metrics dict has key list `keys` (a `KeyError` is raised when `v1` or `v2` is
missing).  Exceptions raised inside the `except HTTPError` handler are not
caught by the sibling `except Exception` clause, so they escape. -/
def globalPrintOk (gstate : Option (List String)) : Except PyError Unit :=
  match gstate with
  | none => .error .nameError
  | some keys =>
    if "v1" ∈ keys then
      if "v2" ∈ keys then .ok ()
      else .error .keyError
    else .error .keyError

/-- Result of a `_perform_query` call: the updated per-version query metric,
a ghost count of request attempts issued so far, and the returned value
(`some body` when a parsed body was returned, `none` for every `return None`
path). -/
structure QueryOutcome where
  metric : Nat
  attempts : Nat
  result : Option Body
deriving DecidableEq

/-- Embedding of the `while attempt <= self.max_attempts` retry loop of
`_perform_query` (lines 35-61).  `resp i` is the response to the request made
at attempt index `i`; `remaining` counts the loop iterations still permitted,
maintained as `max_attempts + 1 - attempt`, so `remaining = 0` is exactly the
loop exit condition `attempt > max_attempts` (which returns `None` after the
"Maximum retries exceeded" log).  Each iteration increments the version's
metric (line 39) and issues one request (line 41); on 429 the handler sleeps,
increments `attempt`, and executes the two global `print` statements before
retrying; any other `HTTPError`, or a generic exception, returns `None`. -/
def queryLoop (resp : Nat → Response) (gstate : Option (List String)) :
    Nat → Nat → Nat → Nat → Except PyError QueryOutcome
  | 0, _, metric, attempts => .ok ⟨metric, attempts, none⟩
  | remaining + 1, attempt, metric, attempts =>
    match resp attempt with
    | .ok body => .ok ⟨metric + 1, attempts + 1, some body⟩
    | .parseError => .ok ⟨metric + 1, attempts + 1, none⟩
    | .netError => .ok ⟨metric + 1, attempts + 1, none⟩
    | .httpStatus code =>
      if code = 429 then
        match globalPrintOk gstate with
        | .error e => .error e
        | .ok _ => queryLoop resp gstate remaining (attempt + 1) (metric + 1) (attempts + 1)
      else .ok ⟨metric + 1, attempts + 1, none⟩

/-- Embedding of `NameHarvester._perform_query` for one `(api_version, term)`
pair, starting from metric value `metric` (and ghost attempt count
`attempts`): the retry loop entered at `attempt = 0` with `max_attempts + 1`
iterations permitted. -/
def performQuery (resp : Nat → Response) (gstate : Option (List String))
    (maxAttempts metric attempts : Nat) : Except PyError QueryOutcome :=
  queryLoop resp gstate (maxAttempts + 1) 0 metric attempts

/-- Per-version harvester state touched by `crawl`: the version's
`discovered_entries` set (modelled as its insertion-ordered element list; the
code only ever tests membership and adds absent elements, so the list is
duplicate-free by construction — which claim C2 asks us to prove) and its
`api_query_metrics` counter, plus ghost history: `attempts` counts requests
issued, `queryLog` records each `_perform_query` invocation as
`(prefix string, current_level)`, and `recurseLog` records each entry that
`crawl` recursed into as a new prefix string. -/
structure VState where
  entries : List String
  metric : Nat
  attempts : Nat
  queryLog : List (String × Nat)
  recurseLog : List String
deriving DecidableEq

/-- Embedding of the `for entry in result_data.get("results", [])` loop of
`crawl` (lines 72-81): for each suggestion in order, if it is not yet in the
version's set, add it and recurse into it (via `rec`, the recursive `crawl`
call at `current_level + 1`); if already known, skip it. -/
def crawlChildren (rec : String → VState → Except PyError VState) :
    List String → VState → Except PyError VState
  | [], st => .ok st
  | e :: rest, st =>
    if e ∈ st.entries then crawlChildren rec rest st
    else
      match rec e { st with
                    entries := st.entries ++ [e]
                    recurseLog := st.recurseLog ++ [e] } with
      | .error err => .error err
      | .ok st' => crawlChildren rec rest st'

/-- Embedding of `NameHarvester.crawl` (lines 63-84) for one API version,
with `resp pre i` the response to the request for prefix string `pre` at
attempt index `i`.  The structural `fuel` argument is maintained equal to
`depth_limit + 1 - current_level` (see `crawl` below), so `fuel = 0` holds
exactly when `current_level > self.depth_limit`, which is the source's guard
at line 65 returning immediately without querying; this makes the traversal
total by construction, against any responder whatsoever.  Otherwise the body
runs `_perform_query`; an escaping exception propagates; a `None` or falsy
(empty-dict) result returns; otherwise the suggestion loop runs, followed by
the pacing sleep (not observable, dropped). -/
def crawlFuel (resp : String → Nat → Response) (gstate : Option (List String))
    (maxAttempts : Nat) : Nat → String → Nat → VState → Except PyError VState
  | 0, _, _, st => .ok st
  | fuel + 1, pre, level, st =>
    match performQuery (resp pre) gstate maxAttempts st.metric st.attempts with
    | .error e => .error e
    | .ok q =>
      let st₁ : VState := { st with
                            metric := q.metric
                            attempts := q.attempts
                            queryLog := st.queryLog ++ [(pre, level)] }
      match q.result with
      | none => .ok st₁
      | some body =>
        if body = [] then .ok st₁
        else crawlChildren
          (fun e st' => crawlFuel resp gstate maxAttempts fuel e (level + 1) st')
          (getResults body) st₁
termination_by structural fuel _ _ _ => fuel

/-- `NameHarvester.crawl` at depth `level`: `crawlFuel` entered with
`fuel = depth_limit + 1 - current_level`.  In ℕ, `fuel = 0` iff
`current_level > depth_limit` (the line-65 guard), and the recursive call at
`current_level + 1` receives `fuel - 1 = depth_limit + 1 - (current_level + 1)`,
so the linkage is maintained at every recursive step. -/
def crawl (resp : String → Nat → Response) (gstate : Option (List String))
    (maxAttempts depthLimit : Nat) (pre : String) (level : Nat)
    (st : VState) : Except PyError VState :=
  crawlFuel resp gstate maxAttempts (depthLimit + 1 - level) pre level st

/-- `string.ascii_lowercase`, iterated over at line 93 as seed strings. -/
def asciiLowercase : List String :=
  ["a", "b", "c", "d", "e", "f", "g", "h", "i", "j", "k", "l", "m",
   "n", "o", "p", "q", "r", "s", "t", "u", "v", "w", "x", "y", "z"]

/-- Embedding of the `for character in ascii_lowercase` loop of
`start_harvesting` (lines 93-94): crawl each remaining seed string at depth 0
for the version whose responder is `resp`. -/
def seedLoop (resp : String → Nat → Response) (gstate : Option (List String))
    (maxAttempts depthLimit : Nat) :
    List String → VState → Except PyError VState
  | [], st => .ok st
  | c :: cs, st =>
    match crawl resp gstate maxAttempts depthLimit c 0 st with
    | .error e => .error e
    | .ok st' => seedLoop resp gstate maxAttempts depthLimit cs st'

/-- Fresh per-version state from `__init__`: empty set, zero metric. -/
def emptyVState : VState := ⟨[], 0, 0, [], []⟩

/-- One iteration of the outer version loop of `start_harvesting`: all 26
seeds for one version, starting from that version's fresh `__init__` state. -/
def harvestVersion (resp : String → String → Nat → Response)
    (gstate : Option (List String)) (maxAttempts depthLimit : Nat)
    (version : String) : Except PyError VState :=
  seedLoop (resp version) gstate maxAttempts depthLimit asciiLowercase emptyVState

/-- Embedding of the `for version in self.supported_apis` loop of
`start_harvesting` (lines 90-98) over a list of distinct versions: process
versions in configured order, returning each version's final state; an
exception escaping any version's crawl aborts the whole run at that point. -/
def startHarvesting (resp : String → String → Nat → Response)
    (gstate : Option (List String)) (maxAttempts depthLimit : Nat) :
    List String → Except PyError (List (String × VState))
  | [] => .ok []
  | v :: vs =>
    match harvestVersion resp gstate maxAttempts depthLimit v with
    | .error e => .error e
    | .ok st =>
      match startHarvesting resp gstate maxAttempts depthLimit vs with
      | .error e => .error e
      | .ok rest => .ok ((v, st) :: rest)

/-- Python `<` on characters: comparison of code points. -/
def charLt (a b : Char) : Bool := a.val.toNat < b.val.toNat

/-- Python `<` on strings as character lists: lexicographic by code point. -/
def dataLt : List Char → List Char → Bool
  | [], [] => false
  | [], _ :: _ => true
  | _ :: _, [] => false
  | a :: as, b :: bs =>
    if charLt a b then true
    else if charLt b a then false
    else dataLt as bs

/-- Python `<` on strings: lexicographic by code point. -/
def strLt (a b : String) : Bool := dataLt a.data b.data

/-- Stable insertion of `x` into a list sorted ascending by `strLt`. -/
def insertSorted (x : String) : List String → List String
  | [] => [x]
  | y :: ys => if strLt y x then y :: insertSorted x ys else x :: y :: ys

/-- Embedding of Python `sorted` on a list of strings: ascending
lexicographic (stable insertion sort). -/
def sortEntries : List String → List String
  | [] => []
  | x :: xs => insertSorted x (sortEntries xs)

/-- One output-file section written by `_save_results` (lines 110-112): the
version header line, then that version's entries sorted ascending, one per
line. -/
def sectionText (version : String) (entries : List String) : String :=
  "--- " ++ version ++ " ---\n"
    ++ String.join ((sortEntries entries).map (fun e => e ++ "\n"))

/-- Embedding of `NameHarvester._save_results` (lines 106-113): the full text
written to `harvested_entries.txt`, one section per version in the order the
run produced them (= configured `supported_apis` order). -/
def saveResults (out : List (String × VState)) : String :=
  String.join (out.map (fun p => sectionText p.1 p.2.entries))

/-- A whole run: `start_harvesting` followed by `_save_results`, returning
the output file text (or the uncaught exception that aborted the run). -/
def fullRun (resp : String → String → Nat → Response)
    (gstate : Option (List String)) (maxAttempts depthLimit : Nat)
    (versions : List String) : Except PyError String :=
  match startHarvesting resp gstate maxAttempts depthLimit versions with
  | .error e => .error e
  | .ok out => .ok (saveResults out)

/-- Configuration fields stored by `NameHarvester.__init__` (lines 10-19). -/
structure NameHarvester where
  endpoint : String
  supported_apis : List String
  pause : Nat
  max_attempts : Nat
  depth_limit : Nat
deriving DecidableEq

/-- Default of the `pause_duration` keyword parameter (line 10). -/
def defaultPauseDuration : Nat := 2

/-- Default of the `retry_limit` keyword parameter (line 10). -/
def defaultRetryLimit : Nat := 3

/-- Default of the `recursion_limit` keyword parameter (line 10). -/
def defaultRecursionLimit : Nat := 2

/-- `NameHarvester(target_endpoint, api_list)` with the three keyword
parameters omitted, as the shipped `__main__` block constructs it. -/
def mkNameHarvesterDefaults (target_endpoint : String)
    (api_list : List String) : NameHarvester :=
  ⟨target_endpoint, api_list, defaultPauseDuration, defaultRetryLimit,
   defaultRecursionLimit⟩

/-- `SERVER_ADDRESS` from the `__main__` block (line 117). -/
def SERVER_ADDRESS : String := "http://35.200.185.69:8000/"

/-- `AVAILABLE_VERSIONS` from the `__main__` block (line 118). -/
def AVAILABLE_VERSIONS : List String := ["v1", "v2", "v3"]

/-- The harvester the shipped entry point constructs (lines 121-124). -/
def mainHarvester : NameHarvester :=
  mkNameHarvesterDefaults SERVER_ADDRESS AVAILABLE_VERSIONS

/-- Globals under which the 429-branch `print` statements succeed: the
module-level `harvester` is bound and its metrics dict contains both
hardcoded keys.  This holds for the shipped `__main__` block, whose
`harvester` has key list `["v1", "v2", "v3"]`. -/
def GoodGlobals (gstate : Option (List String)) : Prop :=
  globalPrintOk gstate = .ok ()

/-- The exception class raised at the 429-branch `print` statements when the
globals are bad: `NameError` for an unbound `harvester`, `KeyError` for a
bound harvester missing the key `v1` or `v2`. -/
def crashError : Option (List String) → PyError
  | none => .nameError
  | some _ => .keyError

/-- Deduplication invariant of a per-version state: the discovered-entry list
has no duplicates, no entry was ever recursed into twice, and every entry
recursed into is present in the discovered set (it had just been inserted). -/
def Inv (st : VState) : Prop :=
  st.entries.Nodup ∧ st.recurseLog.Nodup ∧ ∀ e ∈ st.recurseLog, e ∈ st.entries

/-- How a `crawl` call entered at depth `level` with the given `fuel`
(`depth_limit + 1 - level`) may transform the version state: discovered
entries and ghost logs only grow, the metric counter and the ghost attempt
count grow by the same amount, every newly logged query is at a depth in
`[level, level + fuel)`, and the deduplication invariant is preserved. -/
def StepExt (level fuel : Nat) (st st' : VState) : Prop :=
  (∃ d, st'.entries = st.entries ++ d)
  ∧ (∃ n, st'.metric = st.metric + n ∧ st'.attempts = st.attempts + n)
  ∧ (∃ q, st'.queryLog = st.queryLog ++ q
      ∧ ∀ x ∈ q, level ≤ x.2 ∧ x.2 < level + fuel)
  ∧ (∃ r, st'.recurseLog = st.recurseLog ++ r)
  ∧ (Inv st → Inv st')

/-! Lemmas about the retry loop of `_perform_query`. -/

theorem goodGlobals_of_mem {keys : List String} (h1 : "v1" ∈ keys)
    (h2 : "v2" ∈ keys) : GoodGlobals (some keys) := by
  simp [GoodGlobals, globalPrintOk, h1, h2]

theorem globalPrintOk_bad (g : Option (List String))
    (hbad : g = none ∨ ∃ keys, g = some keys ∧ ("v1" ∉ keys ∨ "v2" ∉ keys)) :
    globalPrintOk g = .error (crashError g) := by
  rcases hbad with h | ⟨keys, hg, hk⟩
  · subst h; rfl
  · subst hg
    rcases hk with hk | hk
    · simp [globalPrintOk, crashError, hk]
    · by_cases h1 : "v1" ∈ keys <;> simp [globalPrintOk, crashError, h1, hk]

theorem queryLoop_ok_delta (resp : Nat → Response) (g : Option (List String)) :
    ∀ fuel attempt m a q, queryLoop resp g fuel attempt m a = .ok q →
      ∃ n, q.metric = m + n ∧ q.attempts = a + n ∧ n ≤ fuel := by
  intro fuel
  induction fuel with
  | zero =>
    intro attempt m a q h
    simp only [queryLoop] at h
    cases h
    exact ⟨0, by simp⟩
  | succ f ih =>
    intro attempt m a q h
    simp only [queryLoop] at h
    split at h
    · cases h; exact ⟨1, by simp⟩
    · cases h; exact ⟨1, by simp⟩
    · cases h; exact ⟨1, by simp⟩
    · split at h
      · split at h
        · cases h
        · rcases ih _ _ _ _ h with ⟨n, hm, ha, hn⟩
          exact ⟨n + 1, by omega⟩
      · cases h; exact ⟨1, by simp⟩

theorem queryLoop_good_ok (resp : Nat → Response) (g : Option (List String))
    (hg : GoodGlobals g) :
    ∀ fuel attempt m a, ∃ q, queryLoop resp g fuel attempt m a = .ok q := by
  have hg' : globalPrintOk g = .ok () := hg
  intro fuel
  induction fuel with
  | zero => intro attempt m a; exact ⟨⟨m, a, none⟩, rfl⟩
  | succ f ih =>
    intro attempt m a
    simp only [queryLoop]
    split
    · exact ⟨_, rfl⟩
    · exact ⟨_, rfl⟩
    · exact ⟨_, rfl⟩
    · split
      · rw [hg']
        exact ih (attempt + 1) (m + 1) (a + 1)
      · exact ⟨_, rfl⟩

theorem queryLoop_all429 (resp : Nat → Response) (g : Option (List String))
    (hg : GoodGlobals g) (hresp : ∀ i, resp i = .httpStatus 429) :
    ∀ fuel attempt m a,
      queryLoop resp g fuel attempt m a = .ok ⟨m + fuel, a + fuel, none⟩ := by
  have hg' : globalPrintOk g = .ok () := hg
  intro fuel
  induction fuel with
  | zero => intro attempt m a; simp [queryLoop]
  | succ f ih =>
    intro attempt m a
    simp only [queryLoop, hresp attempt, if_pos, hg']
    rw [ih (attempt + 1) (m + 1) (a + 1)]
    congr 2 <;> omega

theorem performQuery_ok_delta (resp : Nat → Response) (g : Option (List String))
    (maxA m a : Nat) (q : QueryOutcome)
    (h : performQuery resp g maxA m a = .ok q) :
    ∃ n, q.metric = m + n ∧ q.attempts = a + n ∧ n ≤ maxA + 1 :=
  queryLoop_ok_delta resp g (maxA + 1) 0 m a q h

theorem performQuery_good_ok (resp : Nat → Response) (g : Option (List String))
    (hg : GoodGlobals g) (maxA m a : Nat) :
    ∃ q, performQuery resp g maxA m a = .ok q :=
  queryLoop_good_ok resp g hg (maxA + 1) 0 m a

theorem performQuery_first_ok (resp : Nat → Response) (g : Option (List String))
    (maxA m a : Nat) (body : Body) (h : resp 0 = .ok body) :
    performQuery resp g maxA m a = .ok ⟨m + 1, a + 1, some body⟩ := by
  simp only [performQuery, queryLoop, h]

theorem performQuery_first_429_bad (resp : Nat → Response)
    (g : Option (List String)) (maxA m a : Nat)
    (hbad : g = none ∨ ∃ keys, g = some keys ∧ ("v1" ∉ keys ∨ "v2" ∉ keys))
    (h : resp 0 = .httpStatus 429) :
    performQuery resp g maxA m a = .error (crashError g) := by
  simp [performQuery, queryLoop, h, globalPrintOk_bad g hbad]

/-! Lemmas about the recursive traversal `crawl`. -/

theorem stepExt_refl (level fuel : Nat) (st : VState) : StepExt level fuel st st :=
  ⟨⟨[], by simp⟩, ⟨0, by simp, by simp⟩, ⟨[], by simp, by simp⟩, ⟨[], by simp⟩,
   fun hi => hi⟩

theorem stepExt_trans {level fuel : Nat} {st st' st'' : VState}
    (h1 : StepExt level fuel st st') (h2 : StepExt level fuel st' st'') :
    StepExt level fuel st st'' := by
  obtain ⟨⟨d1, he1⟩, ⟨n1, hm1, ha1⟩, ⟨q1, hq1, hb1⟩, ⟨r1, hr1⟩, hi1⟩ := h1
  obtain ⟨⟨d2, he2⟩, ⟨n2, hm2, ha2⟩, ⟨q2, hq2, hb2⟩, ⟨r2, hr2⟩, hi2⟩ := h2
  refine ⟨⟨d1 ++ d2, by rw [he2, he1, List.append_assoc]⟩,
    ⟨n1 + n2, by omega, by omega⟩,
    ⟨q1 ++ q2, by rw [hq2, hq1, List.append_assoc], ?_⟩,
    ⟨r1 ++ r2, by rw [hr2, hr1, List.append_assoc]⟩,
    fun hi => hi2 (hi1 hi)⟩
  intro x hx
  rcases List.mem_append.mp hx with hx | hx
  · exact hb1 x hx
  · exact hb2 x hx

theorem stepExt_weaken {level fuel : Nat} {st st' : VState}
    (h : StepExt (level + 1) fuel st st') : StepExt level (fuel + 1) st st' := by
  obtain ⟨he, hm, ⟨q, hq, hb⟩, hr, hi⟩ := h
  refine ⟨he, hm, ⟨q, hq, ?_⟩, hr, hi⟩
  intro x hx
  have := hb x hx
  omega

theorem stepExt_insert {e : String} {st : VState} (level fuel : Nat)
    (he : e ∉ st.entries) :
    StepExt level fuel st
      { st with entries := st.entries ++ [e],
                recurseLog := st.recurseLog ++ [e] } := by
  refine ⟨⟨[e], rfl⟩, ⟨0, by simp, by simp⟩, ⟨[], by simp, by simp⟩, ⟨[e], rfl⟩, ?_⟩
  rintro ⟨hnd, hrd, hsub⟩
  refine ⟨?_, ?_, ?_⟩
  · simp only [List.nodup_append, List.nodup_cons, List.nodup_nil, and_true,
      List.disjoint_singleton]
    exact ⟨hnd, by simp, he⟩
  · simp only [List.nodup_append, List.nodup_cons, List.nodup_nil, and_true,
      List.disjoint_singleton]
    exact ⟨hrd, by simp, fun hc => he (hsub e hc)⟩
  · intro x hx
    rcases List.mem_append.mp hx with hx | hx
    · exact List.mem_append.mpr (.inl (hsub x hx))
    · exact List.mem_append.mpr (.inr hx)

theorem stepExt_query (level fuel : Nat) {st : VState} (pre : String)
    (metric attempts n : Nat) (hm : metric = st.metric + n)
    (ha : attempts = st.attempts + n) :
    StepExt level (fuel + 1) st
      { st with metric := metric, attempts := attempts,
                queryLog := st.queryLog ++ [(pre, level)] } := by
  refine ⟨⟨[], by simp⟩, ⟨n, hm, ha⟩, ⟨[(pre, level)], rfl, ?_⟩, ⟨[], by simp⟩,
    fun hi => hi⟩
  intro x hx
  simp only [List.mem_singleton] at hx
  subst hx
  omega

theorem crawlChildren_stepExt (rec : String → VState → Except PyError VState)
    (level fuel : Nat)
    (hrec : ∀ e s s', rec e s = .ok s' → StepExt level fuel s s') :
    ∀ l st st', crawlChildren rec l st = .ok st' → StepExt level fuel st st' := by
  intro l
  induction l with
  | nil =>
    intro st st' h
    simp only [crawlChildren] at h
    cases h
    exact stepExt_refl level fuel st
  | cons e rest ih =>
    intro st st' h
    simp only [crawlChildren] at h
    split at h
    · exact ih st st' h
    · rename_i hmem
      split at h
      · cases h
      · rename_i s₁ hre
        exact stepExt_trans
          (stepExt_trans (stepExt_insert level fuel hmem) (hrec _ _ _ hre))
          (ih _ _ h)

theorem crawlFuel_stepExt (resp : String → Nat → Response)
    (g : Option (List String)) (maxA : Nat) : ∀ fuel pre level st st',
    crawlFuel resp g maxA fuel pre level st = .ok st' →
      StepExt level fuel st st' := by
  intro fuel
  induction fuel with
  | zero =>
    intro pre level st st' h
    simp only [crawlFuel] at h
    cases h
    exact stepExt_refl _ _ _
  | succ f ih =>
    intro pre level st st' h
    simp only [crawlFuel] at h
    split at h
    · cases h
    · rename_i q hq
      obtain ⟨n, hm, ha, _⟩ := performQuery_ok_delta _ _ _ _ _ _ hq
      have base := stepExt_query level f pre q.metric q.attempts n hm ha
      split at h
      · cases h; exact base
      · rename_i body
        split at h
        · cases h; exact base
        · exact stepExt_trans base
            (stepExt_weaken (crawlChildren_stepExt _ (level + 1) f
              (fun e s s' hh => ih e (level + 1) s s' hh) _ _ _ h))

theorem crawl_stepExt (resp : String → Nat → Response)
    (g : Option (List String)) (maxA D : Nat) (pre : String) (level : Nat)
    (st st' : VState) (h : crawl resp g maxA D pre level st = .ok st') :
    StepExt level (D + 1 - level) st st' :=
  crawlFuel_stepExt resp g maxA (D + 1 - level) pre level st st' h

theorem crawlChildren_good_ok (rec : String → VState → Except PyError VState)
    (hrec : ∀ e s, ∃ s', rec e s = .ok s') :
    ∀ l st, ∃ st', crawlChildren rec l st = .ok st' := by
  intro l
  induction l with
  | nil => intro st; exact ⟨st, rfl⟩
  | cons e rest ih =>
    intro st
    simp only [crawlChildren]
    split
    · exact ih st
    · obtain ⟨s₁, h1⟩ := hrec e { st with
        entries := st.entries ++ [e], recurseLog := st.recurseLog ++ [e] }
      rw [h1]
      exact ih s₁

theorem crawlFuel_good_ok (resp : String → Nat → Response)
    (g : Option (List String)) (maxA : Nat) (hg : GoodGlobals g) :
    ∀ fuel pre level st, ∃ st', crawlFuel resp g maxA fuel pre level st = .ok st' := by
  intro fuel
  induction fuel with
  | zero => intro pre level st; exact ⟨st, rfl⟩
  | succ f ih =>
    intro pre level st
    obtain ⟨q, hq⟩ := performQuery_good_ok (resp pre) g hg maxA st.metric st.attempts
    simp only [crawlFuel, hq]
    obtain ⟨qm, qa, qr⟩ := q
    rcases qr with _ | body
    · exact ⟨_, rfl⟩
    · by_cases hb : body = ([] : Body)
      · simp only [hb, if_pos]
        exact ⟨_, rfl⟩
      · simp only [if_neg hb]
        exact crawlChildren_good_ok _ (fun e s => ih e (level + 1) s) _ _

theorem crawl_good_ok (resp : String → Nat → Response)
    (g : Option (List String)) (maxA D : Nat) (hg : GoodGlobals g)
    (pre : String) (level : Nat) (st : VState) :
    ∃ st', crawl resp g maxA D pre level st = .ok st' :=
  crawlFuel_good_ok resp g maxA hg (D + 1 - level) pre level st

/-! Lemmas about the seed and version loops of `start_harvesting`. -/

theorem seedLoop_stepExt (resp : String → Nat → Response)
    (g : Option (List String)) (maxA D : Nat) : ∀ seeds st st',
    seedLoop resp g maxA D seeds st = .ok st' → StepExt 0 (D + 1) st st' := by
  intro seeds
  induction seeds with
  | nil =>
    intro st st' h
    simp only [seedLoop] at h
    cases h
    exact stepExt_refl _ _ _
  | cons c cs ih =>
    intro st st' h
    simp only [seedLoop] at h
    split at h
    · cases h
    · rename_i st₁ hc
      exact stepExt_trans (crawl_stepExt resp g maxA D c 0 st st₁ hc) (ih _ _ h)

theorem seedLoop_good_ok (resp : String → Nat → Response)
    (g : Option (List String)) (maxA D : Nat) (hg : GoodGlobals g) :
    ∀ seeds st, ∃ st', seedLoop resp g maxA D seeds st = .ok st' := by
  intro seeds
  induction seeds with
  | nil => intro st; exact ⟨st, rfl⟩
  | cons c cs ih =>
    intro st
    obtain ⟨st₁, h1⟩ := crawl_good_ok resp g maxA D hg c 0 st
    simp only [seedLoop, h1]
    exact ih st₁

theorem inv_empty : Inv emptyVState := by
  simp [Inv, emptyVState]

theorem harvestVersion_stepExt (resp : String → String → Nat → Response)
    (g : Option (List String)) (maxA D : Nat) (v : String) (st' : VState)
    (h : harvestVersion resp g maxA D v = .ok st') :
    StepExt 0 (D + 1) emptyVState st' :=
  seedLoop_stepExt (resp v) g maxA D asciiLowercase emptyVState st' h

theorem startHarvesting_ok_spec (resp : String → String → Nat → Response)
    (g : Option (List String)) (maxA D : Nat) : ∀ versions out,
    startHarvesting resp g maxA D versions = .ok out →
      out.map Prod.fst = versions
      ∧ ∀ p ∈ out, harvestVersion resp g maxA D p.1 = .ok p.2 := by
  intro versions
  induction versions with
  | nil =>
    intro out h
    simp only [startHarvesting] at h
    cases h
    exact ⟨rfl, by simp⟩
  | cons v vs ih =>
    intro out h
    simp only [startHarvesting] at h
    split at h
    · cases h
    · rename_i st hv
      split at h
      · cases h
      · rename_i rest hrest
        cases h
        obtain ⟨hmap, hall⟩ := ih rest hrest
        refine ⟨by simp [hmap], ?_⟩
        intro p hp
        rcases List.mem_cons.mp hp with hp | hp
        · subst hp; exact hv
        · exact hall p hp

theorem startHarvesting_good_ok (resp : String → String → Nat → Response)
    (g : Option (List String)) (maxA D : Nat) (hg : GoodGlobals g) :
    ∀ versions, ∃ out, startHarvesting resp g maxA D versions = .ok out := by
  intro versions
  induction versions with
  | nil => exact ⟨[], rfl⟩
  | cons v vs ih =>
    obtain ⟨st, hv⟩ := seedLoop_good_ok (resp v) g maxA D hg asciiLowercase emptyVState
    obtain ⟨rest, hrest⟩ := ih
    refine ⟨(v, st) :: rest, ?_⟩
    simp only [startHarvesting, harvestVersion, hv, hrest]

/-! Behavior under an API that always succeeds with an empty suggestion
list. -/

theorem crawlFuel_empty_results (resp : String → Nat → Response)
    (g : Option (List String)) (maxA : Nat)
    (hresp : ∀ p i, ∃ b, resp p i = .ok b ∧ getResults b = [])
    (f : Nat) (pre : String) (level : Nat) (st : VState) :
    crawlFuel resp g maxA (f + 1) pre level st
      = .ok { st with
              metric := st.metric + 1
              attempts := st.attempts + 1
              queryLog := st.queryLog ++ [(pre, level)] } := by
  obtain ⟨b, hb, hgr⟩ := hresp pre 0
  have hq := performQuery_first_ok (resp pre) g maxA st.metric st.attempts b hb
  simp only [crawlFuel, hq]
  by_cases hbe : b = ([] : Body)
  · simp [hbe]
  · simp [hbe, hgr, crawlChildren]

theorem seedLoop_empty_results (resp : String → Nat → Response)
    (g : Option (List String)) (maxA : Nat)
    (hresp : ∀ p i, ∃ b, resp p i = .ok b ∧ getResults b = []) :
    ∀ seeds st, seedLoop resp g maxA 0 seeds st
      = .ok { st with
              metric := st.metric + seeds.length
              attempts := st.attempts + seeds.length
              queryLog := st.queryLog ++ seeds.map (fun c => (c, 0)) } := by
  intro seeds
  induction seeds with
  | nil => intro st; simp [seedLoop]
  | cons c cs ih =>
    intro st
    have hc : crawl resp g maxA 0 c 0 st
        = .ok { st with
                metric := st.metric + 1
                attempts := st.attempts + 1
                queryLog := st.queryLog ++ [(c, 0)] } :=
      crawlFuel_empty_results resp g maxA hresp 0 c 0 st
    simp only [seedLoop, hc, ih]
    congr 1
    simp only [VState.mk.injEq, List.length_cons, List.map_cons, List.append_assoc,
      List.singleton_append, true_and, and_true]
    omega

/-! Order lemmas for the output sort. -/

theorem charLt_irrefl (a : Char) : charLt a a = false := by
  simp [charLt]

theorem charLt_trans {a b c : Char} (h1 : charLt a b = true)
    (h2 : charLt b c = true) : charLt a c = true := by
  simp only [charLt, decide_eq_true_eq] at *
  omega

theorem charLt_connex {a b : Char} (h1 : charLt a b = false)
    (h2 : charLt b a = false) : a = b := by
  simp only [charLt, decide_eq_false_iff_not, not_lt] at h1 h2
  exact Char.ext (UInt32.ext (le_antisymm h2 h1))

theorem charLt_asymm {a b : Char} (h : charLt a b = true) : charLt b a = false := by
  simp only [charLt, decide_eq_true_eq, decide_eq_false_iff_not, not_lt] at *
  omega

theorem dataLt_cons_true {a b : Char} {as bs : List Char} :
    dataLt (a :: as) (b :: bs) = true ↔
      charLt a b = true ∨ (a = b ∧ dataLt as bs = true) := by
  by_cases h1 : charLt a b = true
  · simp [dataLt, h1]
  · by_cases h2 : charLt b a = true
    · have hne : a ≠ b := by
        rintro rfl
        rw [charLt_irrefl] at h2
        cases h2
      simp [dataLt, h1, h2, hne]
    · have heq : a = b := charLt_connex (by simpa using h1) (by simpa using h2)
      subst heq
      simp [dataLt, charLt_irrefl]

theorem dataLt_irrefl : ∀ l, dataLt l l = false := by
  intro l
  induction l with
  | nil => rfl
  | cons a as ih => simp [dataLt, charLt_irrefl, ih]

theorem dataLt_trans : ∀ as bs cs, dataLt as bs = true → dataLt bs cs = true →
    dataLt as cs = true := by
  intro as
  induction as with
  | nil =>
    intro bs cs h1 h2
    cases bs with
    | nil => simp [dataLt] at h1
    | cons b bs' =>
      cases cs with
      | nil => simp [dataLt] at h2
      | cons c cs' => simp [dataLt]
  | cons a as' ih =>
    intro bs cs h1 h2
    cases bs with
    | nil => simp [dataLt] at h1
    | cons b bs' =>
      cases cs with
      | nil => simp [dataLt] at h2
      | cons c cs' =>
        rw [dataLt_cons_true] at h1 h2 ⊢
        rcases h1 with h1 | ⟨rfl, h1⟩
        · rcases h2 with h2 | ⟨rfl, h2⟩
          · exact .inl (charLt_trans h1 h2)
          · exact .inl h1
        · rcases h2 with h2 | ⟨rfl, h2⟩
          · exact .inl h2
          · exact .inr ⟨rfl, ih bs' cs' h1 h2⟩

theorem dataLt_connex : ∀ as bs, dataLt as bs = false → dataLt bs as = false →
    as = bs := by
  intro as
  induction as with
  | nil =>
    intro bs h1 _
    cases bs with
    | nil => rfl
    | cons b bs' => simp [dataLt] at h1
  | cons a as' ih =>
    intro bs h1 h2
    cases bs with
    | nil => simp [dataLt] at h2
    | cons b bs' =>
      have h1' : ¬ (charLt a b = true ∨ (a = b ∧ dataLt as' bs' = true)) := by
        rw [← dataLt_cons_true]
        simp [h1]
      have h2' : ¬ (charLt b a = true ∨ (b = a ∧ dataLt bs' as' = true)) := by
        rw [← dataLt_cons_true]
        simp [h2]
      push_neg at h1' h2'
      obtain ⟨hab, hrest1⟩ := h1'
      obtain ⟨hba, hrest2⟩ := h2'
      have heq : a = b := charLt_connex (by simpa using hab) (by simpa using hba)
      subst heq
      have e1 : dataLt as' bs' = false := by simpa using hrest1 rfl
      have e2 : dataLt bs' as' = false := by simpa using hrest2 rfl
      rw [ih bs' e1 e2]

theorem strLt_trans {a b c : String} (h1 : strLt a b = true)
    (h2 : strLt b c = true) : strLt a c = true :=
  dataLt_trans a.data b.data c.data h1 h2

theorem strLt_asymm {a b : String} (h : strLt a b = true) : strLt b a = false := by
  by_cases hb : strLt b a = true
  · have := strLt_trans h hb
    rw [show strLt a a = dataLt a.data a.data from rfl, dataLt_irrefl] at this
    cases this
  · simpa using hb

theorem strLt_connex {a b : String} (h1 : strLt a b = false)
    (h2 : strLt b a = false) : a = b :=
  String.ext (dataLt_connex a.data b.data h1 h2)

theorem strLt_false_trans {x y z : String} (h1 : strLt z y = false)
    (h2 : strLt y x = false) : strLt z x = false := by
  by_cases h : strLt z x = true
  · by_cases hxy : strLt x y = true
    · have := strLt_trans h hxy
      rw [this] at h1
      cases h1
    · have heq : y = x := strLt_connex h2 (by simpa using hxy)
      rw [heq] at h1
      rw [h] at h1
      cases h1
  · simpa using h

theorem insertSorted_perm (x : String) : ∀ l, (insertSorted x l).Perm (x :: l) := by
  intro l
  induction l with
  | nil => exact List.Perm.refl _
  | cons y ys ih =>
    simp only [insertSorted]
    split
    · exact (List.Perm.cons y ih).trans (List.Perm.swap x y ys)
    · exact List.Perm.refl _

theorem insertSorted_sorted {x : String} : ∀ {l : List String},
    List.Sorted (fun a b => strLt b a = false) l →
    List.Sorted (fun a b => strLt b a = false) (insertSorted x l) := by
  intro l
  induction l with
  | nil => intro _; simp [insertSorted]
  | cons y ys ih =>
    intro h
    rw [List.sorted_cons] at h
    obtain ⟨hy, hys⟩ := h
    simp only [insertSorted]
    split
    · rename_i hyx
      rw [List.sorted_cons]
      refine ⟨?_, ih hys⟩
      intro z hz
      have hz' : z ∈ x :: ys := (insertSorted_perm x ys).mem_iff.mp hz
      rcases List.mem_cons.mp hz' with rfl | hz'
      · exact strLt_asymm hyx
      · exact hy z hz'
    · rename_i hyx
      rw [List.sorted_cons]
      refine ⟨?_, List.sorted_cons.mpr ⟨hy, hys⟩⟩
      intro z hz
      rcases List.mem_cons.mp hz with rfl | hz
      · simpa using hyx
      · exact strLt_false_trans (hy z hz) (by simpa using hyx)

theorem sortEntries_perm : ∀ l, (sortEntries l).Perm l := by
  intro l
  induction l with
  | nil => exact List.Perm.refl _
  | cons x xs ih =>
    exact (insertSorted_perm x (sortEntries xs)).trans (ih.cons x)

theorem sortEntries_sorted (l : List String) :
    List.Sorted (fun a b => strLt b a = false) (sortEntries l) := by
  induction l with
  | nil => simp [sortEntries]
  | cons x xs ih => exact insertSorted_sorted ih

theorem startHarvesting_empty_results (resp : String → String → Nat → Response)
    (g : Option (List String)) (maxA : Nat)
    (hresp : ∀ v p i, ∃ b, resp v p i = .ok b ∧ getResults b = []) :
    ∀ versions, startHarvesting resp g maxA 0 versions
      = .ok (versions.map (fun v =>
          (v, ⟨[], 26, 26, asciiLowercase.map (fun c => (c, 0)), []⟩))) := by
  intro versions
  induction versions with
  | nil => rfl
  | cons v vs ih =>
    have hv : harvestVersion resp g maxA 0 v
        = .ok ⟨[], 26, 26, asciiLowercase.map (fun c => (c, 0)), []⟩ := by
      have h26 := seedLoop_empty_results (resp v) g maxA (fun p i => hresp v p i)
        asciiLowercase emptyVState
      exact h26
    simp only [startHarvesting, hv, ih, List.map_cons]

/-! The ten claims. -/

/-- C1: for every configured `depth_limit = d`, a `crawl` call with
`current_level > d` returns immediately with the state unchanged — no Query
Executor call, no metric increment, no logged query.  Together with the fact
that `crawl` is defined by structural recursion on `d + 1 - current_level`
(hence total for every responder), the traversal terminates even against an
API that returns a fresh, never-before-seen suggestion for every query. -/
theorem crawl_depth_guard (resp : String → Nat → Response)
    (g : Option (List String)) (maxA D : Nat) (pre : String) (level : Nat)
    (st : VState) (h : D < level) :
    crawl resp g maxA D pre level st = .ok st := by
  unfold crawl
  have hz : D + 1 - level = 0 := by omega
  rw [hz]
  rfl

theorem crawl_depth_guard_witness :
    (2 : Nat) < 3
    ∧ crawl (fun _ _ => .ok [("results", ["x"])]) none 3 2 "q" 3 emptyVState
        = .ok emptyVState :=
  ⟨by decide, crawl_depth_guard (fun _ _ => .ok [("results", ["x"])]) none 3 2 "q"
    3 emptyVState (by decide)⟩

/-- C2: for every API version of any completed run, the final DiscoverySet
contains no duplicate entries, no entry string is recursed into (used as a
new prefix) more than once even when several parents return it, and every
recursed-into entry is a member of that version's DiscoverySet — recursion
happens only on the branch that has just newly inserted the entry. -/
theorem discovery_dedup (resp : String → String → Nat → Response)
    (g : Option (List String)) (maxA D : Nat) (versions : List String)
    (out : List (String × VState))
    (h : startHarvesting resp g maxA D versions = .ok out) :
    ∀ p ∈ out, p.2.entries.Nodup ∧ p.2.recurseLog.Nodup
      ∧ ∀ e ∈ p.2.recurseLog, e ∈ p.2.entries := by
  intro p hp
  obtain ⟨-, hall⟩ := startHarvesting_ok_spec resp g maxA D versions out h
  have hse := harvestVersion_stepExt resp g maxA D p.1 p.2 (hall p hp)
  exact hse.2.2.2.2 inv_empty

theorem discovery_dedup_witness :
    ([] : List String).Nodup ∧ ([] : List String).Nodup
      ∧ ∀ e ∈ ([] : List String), e ∈ ([] : List String) :=
  discovery_dedup (fun _ _ _ => .ok [("results", [])]) none 3 0 ["v1"]
    [("v1", ⟨[], 26, 26, asciiLowercase.map (fun c => (c, 0)), []⟩)] (by decide)
    ("v1", ⟨[], 26, 26, asciiLowercase.map (fun c => (c, 0)), []⟩) (by decide)

/-- C3: under an API yielding HTTP 429 on every attempt (with the shipped
globals, whose metrics contain both `v1` and `v2`), `_perform_query` issues
exactly `max_attempts + 1` request attempts — attempt indices 0 through
`max_attempts` inclusive, metric and ghost attempt count each rising by
exactly `max_attempts + 1` — and then returns `None` (NoResult): never more
attempts and never fewer. -/
theorem backoff_exact_attempts (resp : Nat → Response) (keys : List String)
    (maxA m a : Nat) (h1 : "v1" ∈ keys) (h2 : "v2" ∈ keys)
    (hresp : ∀ i, resp i = .httpStatus 429) :
    performQuery resp (some keys) maxA m a
      = .ok ⟨m + (maxA + 1), a + (maxA + 1), none⟩ :=
  queryLoop_all429 resp (some keys) (goodGlobals_of_mem h1 h2) hresp
    (maxA + 1) 0 m a

theorem backoff_exact_attempts_witness :
    performQuery (fun _ => .httpStatus 429) (some ["v1", "v2", "v3"]) 3 0 0
      = .ok ⟨0 + (3 + 1), 0 + (3 + 1), none⟩ :=
  backoff_exact_attempts (fun _ => .httpStatus 429) ["v1", "v2", "v3"] 3 0 0
    (by decide) (by decide) (fun _ => rfl)

/-- C4 counterexample: two successful responses whose bodies carry identical
`results` fields make `_perform_query` return different values, and the value
returned for the larger body is the whole parsed body — so the Query
Executor does not return "the `results` field of the response body as the
suggestion list"; it returns the parsed body itself. -/
theorem executor_whole_body_cex :
    getResults [("results", ["x"])]
        = getResults [("results", ["x"]), ("extra", ["y"])]
    ∧ performQuery (fun _ => .ok [("results", ["x"])]) none 3 0 0
        ≠ performQuery (fun _ => .ok [("results", ["x"]), ("extra", ["y"])]) none 3 0 0
    ∧ performQuery (fun _ => .ok [("results", ["x"]), ("extra", ["y"])]) none 3 0 0
        = .ok ⟨1, 1, some [("results", ["x"]), ("extra", ["y"])]⟩ := by
  decide

/-- C4 amended: on a successful request (HTTP 2xx with a parseable body)
`_perform_query` returns the whole parsed JSON body, and it is the caller
`crawl` that extracts the `results` field via the embedded
`result_data.get` — the empty list when the field is absent, the field value
when present — so the suggestion list the traversal consumes is always the
`results` field or the empty list. -/
theorem executor_returns_whole_body (resp : Nat → Response)
    (g : Option (List String)) (maxA m a : Nat) (body : Body)
    (h : resp 0 = .ok body) :
    performQuery resp g maxA m a = .ok ⟨m + 1, a + 1, some body⟩
    ∧ (body.lookup "results" = none → getResults body = [])
    ∧ ∀ l, body.lookup "results" = some l → getResults body = l := by
  refine ⟨performQuery_first_ok resp g maxA m a body h, ?_, ?_⟩
  · intro hl
    simp [getResults, hl]
  · intro l hl
    simp [getResults, hl]

theorem executor_returns_whole_body_witness :
    performQuery (fun _ => .ok [("other", ["y"])]) none 3 0 0
      = .ok ⟨0 + 1, 0 + 1, some [("other", ["y"])]⟩
    ∧ (List.lookup "results" [("other", ["y"])] = none
        → getResults [("other", ["y"])] = [])
    ∧ ∀ l, List.lookup "results" [("other", ["y"])] = some l
        → getResults [("other", ["y"])] = l :=
  executor_returns_whole_body (fun _ => .ok [("other", ["y"])]) none 3 0 0
    [("other", ["y"])] rfl

/-- C5: with the shipped globals (metrics keys including `v1` and `v2`),
every per-request error is contained in the branch that triggered it: a full
run over any responder — however many non-2xx statuses, transport or parse
failures, or exhausted retry sequences it produces — always completes and
returns the output text; any single `crawl` call returns normally and only
ever appends to the already-discovered entry list, so entries discovered
under other prefixes survive; and the completed run emits one section per
configured version, in order, so sibling branches, remaining seed letters
and remaining versions are all still processed. -/
theorem per_request_error_isolation (keys : List String)
    (h1 : "v1" ∈ keys) (h2 : "v2" ∈ keys) :
    (∀ (resp : String → String → Nat → Response) (maxA D : Nat)
        (versions : List String), ∃ text,
        fullRun resp (some keys) maxA D versions = .ok text)
    ∧ (∀ (resp : String → Nat → Response) (maxA D : Nat) (pre : String)
        (level : Nat) (st : VState), ∃ st',
        crawl resp (some keys) maxA D pre level st = .ok st'
          ∧ ∃ d, st'.entries = st.entries ++ d)
    ∧ (∀ (resp : String → String → Nat → Response) (maxA D : Nat)
        (versions : List String) (out : List (String × VState)),
        startHarvesting resp (some keys) maxA D versions = .ok out
          → out.map Prod.fst = versions) := by
  have hg := goodGlobals_of_mem h1 h2
  refine ⟨?_, ?_, ?_⟩
  · intro resp maxA D versions
    obtain ⟨out, hout⟩ := startHarvesting_good_ok resp (some keys) maxA D hg versions
    exact ⟨saveResults out, by simp [fullRun, hout]⟩
  · intro resp maxA D pre level st
    obtain ⟨st', hst⟩ := crawl_good_ok resp (some keys) maxA D hg pre level st
    obtain ⟨⟨d, hd⟩, -, -, -, -⟩ :=
      crawl_stepExt resp (some keys) maxA D pre level st st' hst
    exact ⟨st', hst, d, hd⟩
  · intro resp maxA D versions out h
    exact (startHarvesting_ok_spec resp (some keys) maxA D versions out h).1

theorem per_request_error_isolation_witness :
    (∀ (resp : String → String → Nat → Response) (maxA D : Nat)
        (versions : List String), ∃ text,
        fullRun resp (some ["v1", "v2", "v3"]) maxA D versions = .ok text)
    ∧ (∀ (resp : String → Nat → Response) (maxA D : Nat) (pre : String)
        (level : Nat) (st : VState), ∃ st',
        crawl resp (some ["v1", "v2", "v3"]) maxA D pre level st = .ok st'
          ∧ ∃ d, st'.entries = st.entries ++ d)
    ∧ (∀ (resp : String → String → Nat → Response) (maxA D : Nat)
        (versions : List String) (out : List (String × VState)),
        startHarvesting resp (some ["v1", "v2", "v3"]) maxA D versions = .ok out
          → out.map Prod.fst = versions) :=
  per_request_error_isolation ["v1", "v2", "v3"] (by decide) (by decide)

/-- C6: the per-version QueryMetric never decreases across any `crawl` call;
it moves in lockstep with the ghost count of request attempts actually
issued (successful requests, retried attempts after 429, and the final
exhausting attempt all increment both); and after any completed run each
version's final metric equals the exact number of request attempts issued
for that version. -/
theorem query_metric_monotone_exact :
    (∀ (resp : String → Nat → Response) (g : Option (List String))
        (maxA D : Nat) (pre : String) (level : Nat) (st st' : VState),
        crawl resp g maxA D pre level st = .ok st'
          → st.metric ≤ st'.metric
            ∧ st'.metric + st.attempts = st'.attempts + st.metric)
    ∧ (∀ (resp : String → String → Nat → Response) (g : Option (List String))
        (maxA D : Nat) (versions : List String) (out : List (String × VState)),
        startHarvesting resp g maxA D versions = .ok out
          → ∀ p ∈ out, p.2.metric = p.2.attempts) := by
  constructor
  · intro resp g maxA D pre level st st' h
    obtain ⟨-, ⟨n, hm, ha⟩, -, -, -⟩ := crawl_stepExt resp g maxA D pre level st st' h
    omega
  · intro resp g maxA D versions out h p hp
    obtain ⟨-, hall⟩ := startHarvesting_ok_spec resp g maxA D versions out h
    obtain ⟨-, ⟨n, hm, ha⟩, -, -, -⟩ :=
      harvestVersion_stepExt resp g maxA D p.1 p.2 (hall p hp)
    simp only [emptyVState] at hm ha
    omega

theorem query_metric_monotone_exact_witness :
    emptyVState.metric ≤ (VState.mk [] 1 1 [("a", 0)] []).metric
    ∧ (VState.mk [] 1 1 [("a", 0)] []).metric + emptyVState.attempts
        = (VState.mk [] 1 1 [("a", 0)] []).attempts + emptyVState.metric :=
  query_metric_monotone_exact.1 (fun _ _ => .netError) none 3 2 "a" 0 emptyVState
    (VState.mk [] 1 1 [("a", 0)] []) (by decide)

/-- C7: `_save_results` writes one section per version in run (= configured)
order, each section a header line followed by that version's entries one per
line in ascending lexicographic order (the written list is a sorted
permutation of the entry set), and on the spec's example mapping it produces
exactly the expected text. -/
theorem save_results_sorted_sections (out : List (String × VState)) :
    saveResults out = String.join (out.map (fun p =>
        "--- " ++ p.1 ++ " ---\n"
          ++ String.join ((sortEntries p.2.entries).map (fun e => e ++ "\n"))))
    ∧ (∀ p ∈ out, (sortEntries p.2.entries).Perm p.2.entries
        ∧ List.Sorted (fun a b => strLt b a = false) (sortEntries p.2.entries))
    ∧ saveResults [("v1", ⟨["banana", "apple"], 0, 0, [], []⟩),
        ("v2", ⟨["zeta"], 0, 0, [], []⟩)]
      = "--- v1 ---\napple\nbanana\n--- v2 ---\nzeta\n" := by
  refine ⟨rfl, ?_, by decide⟩
  intro p _
  exact ⟨sortEntries_perm p.2.entries, sortEntries_sorted p.2.entries⟩

theorem save_results_sorted_sections_witness :
    saveResults [("v1", ⟨["banana", "apple"], 0, 0, [], []⟩),
        ("v2", ⟨["zeta"], 0, 0, [], []⟩)]
      = "--- v1 ---\napple\nbanana\n--- v2 ---\nzeta\n" :=
  (save_results_sorted_sections [("v1", ⟨["banana", "apple"], 0, 0, [], []⟩),
    ("v2", ⟨["zeta"], 0, 0, [], []⟩)]).2.2

/-- C8: with `depth_limit = 0` and an API that answers every query
successfully with no suggestions, a full run leaves every version's final
DiscoverySet empty, yet the Query Executor is invoked exactly 26 times per
configured version — the query log is exactly the seeds a..z in order, each
queried at depth 0, and the metric equals 26. -/
theorem seed_coverage (resp : String → String → Nat → Response)
    (g : Option (List String)) (maxA : Nat) (versions : List String)
    (hresp : ∀ v p i, ∃ b, resp v p i = .ok b ∧ getResults b = []) :
    startHarvesting resp g maxA 0 versions
      = .ok (versions.map (fun v =>
          (v, ⟨[], 26, 26, asciiLowercase.map (fun c => (c, 0)), []⟩))) :=
  startHarvesting_empty_results resp g maxA hresp versions

theorem seed_coverage_witness :
    startHarvesting (fun _ _ _ => .ok [("results", [])]) none 3 0 ["v1", "v2", "v3"]
      = .ok (["v1", "v2", "v3"].map (fun v =>
          (v, ⟨[], 26, 26, asciiLowercase.map (fun c => (c, 0)), []⟩))) :=
  seed_coverage (fun _ _ _ => .ok [("results", [])]) none 3 ["v1", "v2", "v3"]
    (fun _ _ _ => ⟨[("results", [])], rfl, rfl⟩)

/-- C9: when a request receives HTTP 429, the retry branch reads the
module-level global `harvester` and indexes its metrics with the hardcoded
keys `v1` and `v2`; for every run whose globals lack the binding (NameError)
or either key (KeyError), the first rate-limited response raises an uncaught
exception that aborts the entire run — here the very first seed query of the
first configured version rate-limits and `start_harvesting` propagates the
exception instead of pruning the branch. -/
theorem rate_limit_global_crash (resp : String → String → Nat → Response)
    (g : Option (List String)) (maxA D : Nat) (v : String) (vs : List String)
    (hbad : g = none ∨ ∃ keys, g = some keys ∧ ("v1" ∉ keys ∨ "v2" ∉ keys))
    (h429 : resp v "a" 0 = .httpStatus 429) :
    startHarvesting resp g maxA D (v :: vs) = .error (crashError g) := by
  have hq := performQuery_first_429_bad (resp v "a") g maxA emptyVState.metric
    emptyVState.attempts hbad h429
  have hcrawl : crawl (resp v) g maxA D "a" 0 emptyVState
      = .error (crashError g) := by
    unfold crawl
    have hD : D + 1 - 0 = D + 1 := by omega
    rw [hD]
    simp only [crawlFuel, hq]
  simp only [startHarvesting, harvestVersion, asciiLowercase, seedLoop, hcrawl]

theorem rate_limit_global_crash_witness :
    startHarvesting (fun _ _ _ => .httpStatus 429) (some ["v2", "v3"]) 3 2 ["v1"]
      = .error (crashError (some ["v2", "v3"])) :=
  rate_limit_global_crash (fun _ _ _ => .httpStatus 429) (some ["v2", "v3"]) 3 2
    "v1" [] (.inr ⟨["v2", "v3"], rfl, .inl (by decide)⟩) rfl

/-- C10: constructing the harvester with the pacing, retry and depth
parameters omitted uses the defaults pause 2 s, retry limit 3, recursion
depth 2; the shipped entry point omits all three, so the shipped harvester
carries exactly these values, every query of a run under them is at depth at
most 2, and every `_perform_query` call issues at most 4 attempts. -/
theorem default_configuration :
    mainHarvester.pause = 2 ∧ mainHarvester.max_attempts = 3
    ∧ mainHarvester.depth_limit = 2
    ∧ mainHarvester = ⟨SERVER_ADDRESS, AVAILABLE_VERSIONS, 2, 3, 2⟩
    ∧ (∀ (resp : String → String → Nat → Response) (g : Option (List String))
        (versions : List String) (out : List (String × VState)),
        startHarvesting resp g mainHarvester.max_attempts
            mainHarvester.depth_limit versions = .ok out
          → ∀ p ∈ out, ∀ x ∈ p.2.queryLog, x.2 ≤ 2)
    ∧ (∀ (resp : Nat → Response) (g : Option (List String)) (m a : Nat)
        (q : QueryOutcome),
        performQuery resp g mainHarvester.max_attempts m a = .ok q
          → q.attempts ≤ a + 4) := by
  refine ⟨rfl, rfl, rfl, rfl, ?_, ?_⟩
  · intro resp g versions out h p hp x hx
    obtain ⟨-, hall⟩ := startHarvesting_ok_spec resp g mainHarvester.max_attempts
      mainHarvester.depth_limit versions out h
    obtain ⟨-, -, ⟨ql, hql, hbound⟩, -, -⟩ :=
      harvestVersion_stepExt resp g mainHarvester.max_attempts
        mainHarvester.depth_limit p.1 p.2 (hall p hp)
    rw [hql] at hx
    simp only [emptyVState, List.nil_append] at hx
    have hb := hbound x hx
    have hD : mainHarvester.depth_limit = 2 := rfl
    rw [hD] at hb
    omega
  · intro resp g m a q h
    obtain ⟨n, -, ha, hn⟩ := performQuery_ok_delta resp g
      mainHarvester.max_attempts m a q h
    have hM : mainHarvester.max_attempts = 3 := rfl
    rw [hM] at hn
    omega

theorem default_configuration_witness :
    (1 : Nat) ≤ 0 + 4 ∧ mainHarvester.pause = 2 :=
  ⟨default_configuration.2.2.2.2.2 (fun _ => .netError) none 0 0 ⟨1, 1, none⟩
    (by decide), default_configuration.1⟩

end Harvest
